import Mathlib

/-!
# Verification of the VideoConverter runner pipeline

Shallow embedding of the runner-side pipeline of the VideoConverter
repository: the multi-stage task queue (`src/core/TaskQueue.ts`), the HTTP
retry classifier (`src/utils/api.ts`), the bitrate solver
(`src/task/converter.ts`), the chunked S3 uploader (Bun uploader in
`src/task/converter.ts`), the chunked downloader (`src/utils/downloader.ts`),
and the per-task state machine (`src/core/TaskStates.ts` together with the
`TaskProcessor` in `src/core/TaskState.ts`).

Every definition mirrors the corresponding TypeScript function; theorems at
the end settle the frozen claims about this code.
-/

namespace VideoConverter

/-! ## Task queue (`src/core/TaskQueue.ts`) -/

/-- A task as seen by the queue: identity plus priority
(`(task as any).priority || 0` in `sortQueueByPriority`). -/
structure Task where
  id : String
  priority : Int
deriving DecidableEq, Repr

/-- The three pipeline stages (`enum TaskStage`). -/
inductive Stage where
  | download
  | convert
  | upload
deriving DecidableEq, Repr

/-- Events emitted by the queue (`this.emit(...)` calls). -/
inductive QEvent where
  | added (id : String)
  | updated
  | started (stage : Stage) (id : String)
  | stageCompleted (stage : Stage) (id : String)
  | completed (id : String)
  | failed (id : String) (stage : Stage)
  | cleared
deriving DecidableEq, Repr

/-- State of a `TaskQueue` instance: the three waiting lists, the three
`Set<string>` of in-flight ids (modelled as duplicate-free lists in insertion
order), and the three concurrency caps. -/
structure QState where
  downloadQueue : List Task
  convertQueue : List Task
  uploadQueue : List Task
  processingDownload : List String
  processingConvert : List String
  processingUpload : List String
  maxDownloadConcurrent : Int
  maxConvertConcurrent : Int
  maxUploadConcurrent : Int
deriving DecidableEq, Repr

/-- A freshly constructed queue with explicit caps (`new TaskQueue(d, c, u)`). -/
def QState.mk0 (d c u : Int) : QState :=
  ⟨[], [], [], [], [], [], d, c, u⟩

/-- The constructor's default arguments: `maxDownloadConcurrent = 2`,
`maxConvertConcurrent = 1`, `maxUploadConcurrent = 2`. -/
def TaskQueue.defaultState : QState := QState.mk0 2 1 2

/-- The queue the runner actually builds: `new TaskQueue(1, 1, 1)`
(`src/services/runner.ts`, RunnerService constructor). -/
def RunnerService.queue : QState := QState.mk0 1 1 1

/-- `Set.add`: JS sets ignore an insertion of a present element. -/
def setAdd (l : List String) (x : String) : List String :=
  if x ∈ l then l else l ++ [x]

/-- `Set.delete`: removes the element when present. -/
def setDelete (l : List String) (x : String) : List String :=
  l.erase x

/-- `TaskQueue.isTaskInAnyQueue`. -/
def isTaskInAnyQueue (s : QState) (taskId : String) : Bool :=
  s.downloadQueue.any (fun t => t.id == taskId) ||
  s.convertQueue.any (fun t => t.id == taskId) ||
  s.uploadQueue.any (fun t => t.id == taskId) ||
  s.processingDownload.contains taskId ||
  s.processingConvert.contains taskId ||
  s.processingUpload.contains taskId

/-- `TaskQueue.add`: push to the download queue unless the id is already in
some queue; emits `added` and `updated` exactly when it inserts. -/
def qAdd (s : QState) (t : Task) : QState × List QEvent :=
  if isTaskInAnyQueue s t.id then (s, [])
  else ({ s with downloadQueue := s.downloadQueue ++ [t] },
        [QEvent.added t.id, QEvent.updated])

/-- Stable insertion of a task into a priority-descending list; an element is
placed before all strictly lower priorities and after equal ones already
present, matching JS `Array.prototype.sort`'s stability with the comparator
`(a, b) => priorityB - priorityA`. -/
def insertDesc (t : Task) : List Task → List Task
  | [] => [t]
  | h :: tl => if h.priority < t.priority then t :: h :: tl else h :: insertDesc t tl

/-- `TaskQueue.sortQueueByPriority`: stable sort, higher priority first. -/
def sortDesc : List Task → List Task
  | [] => []
  | h :: tl => insertDesc h (sortDesc tl)

/-- `TaskQueue.nextDownload`: `null` when the waiting list is empty or the
in-flight set has reached the cap, otherwise pop the highest-priority task
and mark it in-flight. -/
def qNextDownload (s : QState) : QState × List QEvent × Option Task :=
  if s.downloadQueue.length = 0 ∨ s.maxDownloadConcurrent ≤ (s.processingDownload.length : Int) then
    (s, [], none)
  else
    match sortDesc s.downloadQueue with
    | [] => (s, [], none)
    | t :: rest =>
      ({ s with downloadQueue := rest,
                processingDownload := setAdd s.processingDownload t.id },
       [QEvent.started Stage.download t.id, QEvent.updated], some t)

/-- `TaskQueue.nextConvert`. -/
def qNextConvert (s : QState) : QState × List QEvent × Option Task :=
  if s.convertQueue.length = 0 ∨ s.maxConvertConcurrent ≤ (s.processingConvert.length : Int) then
    (s, [], none)
  else
    match sortDesc s.convertQueue with
    | [] => (s, [], none)
    | t :: rest =>
      ({ s with convertQueue := rest,
                processingConvert := setAdd s.processingConvert t.id },
       [QEvent.started Stage.convert t.id, QEvent.updated], some t)

/-- `TaskQueue.nextUpload`. -/
def qNextUpload (s : QState) : QState × List QEvent × Option Task :=
  if s.uploadQueue.length = 0 ∨ s.maxUploadConcurrent ≤ (s.processingUpload.length : Int) then
    (s, [], none)
  else
    match sortDesc s.uploadQueue with
    | [] => (s, [], none)
    | t :: rest =>
      ({ s with uploadQueue := rest,
                processingUpload := setAdd s.processingUpload t.id },
       [QEvent.started Stage.upload t.id, QEvent.updated], some t)

/-- `TaskQueue.completeDownload`: move an in-flight download to the convert
waiting list; a task that is not in-flight is ignored entirely. -/
def qCompleteDownload (s : QState) (t : Task) : QState × List QEvent :=
  if s.processingDownload.contains t.id then
    ({ s with processingDownload := setDelete s.processingDownload t.id,
              convertQueue := s.convertQueue ++ [t] },
     [QEvent.stageCompleted Stage.download t.id, QEvent.updated])
  else (s, [])

/-- `TaskQueue.completeConvert`. -/
def qCompleteConvert (s : QState) (t : Task) : QState × List QEvent :=
  if s.processingConvert.contains t.id then
    ({ s with processingConvert := setDelete s.processingConvert t.id,
              uploadQueue := s.uploadQueue ++ [t] },
     [QEvent.stageCompleted Stage.convert t.id, QEvent.updated])
  else (s, [])

/-- `TaskQueue.completeUpload`: remove from the upload in-flight set and emit
terminal completion. -/
def qCompleteUpload (s : QState) (t : Task) : QState × List QEvent :=
  if s.processingUpload.contains t.id then
    ({ s with processingUpload := setDelete s.processingUpload t.id },
     [QEvent.completed t.id, QEvent.updated])
  else (s, [])

/-- `TaskQueue.fail`: remove the id from the named stage's in-flight set (when
present) and emit `failed` + `updated` unconditionally. -/
def qFail (s : QState) (taskId : String) (stage : Stage) : QState × List QEvent :=
  let s' :=
    match stage with
    | Stage.download =>
      if s.processingDownload.contains taskId then
        { s with processingDownload := setDelete s.processingDownload taskId } else s
    | Stage.convert =>
      if s.processingConvert.contains taskId then
        { s with processingConvert := setDelete s.processingConvert taskId } else s
    | Stage.upload =>
      if s.processingUpload.contains taskId then
        { s with processingUpload := setDelete s.processingUpload taskId } else s
  (s', [QEvent.failed taskId stage, QEvent.updated])

/-- `TaskQueue.clear`. -/
def qClear (s : QState) : QState × List QEvent :=
  ({ s with downloadQueue := [], convertQueue := [], uploadQueue := [],
            processingDownload := [], processingConvert := [], processingUpload := [] },
   [QEvent.cleared, QEvent.updated])

/-- One queue operation, for reasoning about arbitrary interleavings. -/
inductive QOp where
  | add (t : Task)
  | nextDownload
  | nextConvert
  | nextUpload
  | completeDownload (t : Task)
  | completeConvert (t : Task)
  | completeUpload (t : Task)
  | fail (taskId : String) (stage : Stage)
  | clear
deriving DecidableEq, Repr

/-- Apply one operation (state part only). -/
def qStep (s : QState) : QOp → QState
  | QOp.add t => (qAdd s t).1
  | QOp.nextDownload => (qNextDownload s).1
  | QOp.nextConvert => (qNextConvert s).1
  | QOp.nextUpload => (qNextUpload s).1
  | QOp.completeDownload t => (qCompleteDownload s t).1
  | QOp.completeConvert t => (qCompleteConvert s t).1
  | QOp.completeUpload t => (qCompleteUpload s t).1
  | QOp.fail i st => (qFail s i st).1
  | QOp.clear => (qClear s).1

/-- Run a sequence of operations from a state. -/
def qRun (ops : List QOp) (s : QState) : QState :=
  ops.foldl qStep s

/-- Number of occurrences of an id in one waiting list. -/
def countId (l : List Task) (i : String) : Nat :=
  l.countP (fun t => t.id == i)

/-- Total number of occurrences of an id across all waiting lists and
in-flight sets. -/
def occCount (s : QState) (i : String) : Nat :=
  countId s.downloadQueue i + countId s.convertQueue i + countId s.uploadQueue i +
  s.processingDownload.count i + s.processingConvert.count i + s.processingUpload.count i

/-- The "at most once anywhere" invariant: every id occurs at most once across
the three waiting lists and the three in-flight sets together. -/
def QInv (s : QState) : Prop := ∀ j, occCount s j ≤ 1

/-- The in-flight sets respect their configured caps. -/
def capsLe (s : QState) : Prop :=
  (s.processingDownload.length : Int) ≤ s.maxDownloadConcurrent ∧
  (s.processingConvert.length : Int) ≤ s.maxConvertConcurrent ∧
  (s.processingUpload.length : Int) ≤ s.maxUploadConcurrent

/-! ## HTTP client retry policy (`src/utils/api.ts`) -/

/-- `aPat.isPrefixOf` over tails: does `pat` occur as a contiguous substring
of `s`?  Mirrors JS `String.prototype.includes`. -/
def strIncludes (s pat : List Char) : Bool :=
  s.tails.any (fun t => pat.isPrefixOf t)

/-- `isProgressApi`: the url contains `/download`, `/convert` or `/upload`. -/
def isProgressApi (url : List Char) : Bool :=
  strIncludes url ('/' :: "download".toList) ||
  strIncludes url ('/' :: "convert".toList) ||
  strIncludes url ('/' :: "upload".toList)

/-- `isStateApi`: the url contains `/downloadComplete`, `/convertComplete`,
`/complete` or `/fail` (only used to pick the log level of a retry). -/
def isStateApi (url : List Char) : Bool :=
  strIncludes url ('/' :: "downloadComplete".toList) ||
  strIncludes url ('/' :: "convertComplete".toList) ||
  strIncludes url ('/' :: "complete".toList) ||
  strIncludes url ('/' :: "fail".toList)

/-- Retry configuration constants of `api.ts`. -/
def MAX_RETRIES : Nat := 3

/-- `INITIAL_RETRY_DELAY` (milliseconds). -/
def INITIAL_RETRY_DELAY : Nat := 1000

/-- `MAX_RETRY_DELAY` (milliseconds). -/
def MAX_RETRY_DELAY : Nat := 30000

/-- Outcome of one attempt of the wrapped axios call, as classified by
`isRetryableError`: success, a retryable failure (network error or HTTP 5xx),
or a non-retryable failure (HTTP 404 or any other status below 500). -/
inductive Attempt where
  | success
  | retryableFailure
  | nonRetryableFailure
deriving DecidableEq, Repr

/-- Observable outcome of `withRetry`: the call succeeded, the failure was
swallowed (progress path), or the error was rethrown to the caller. -/
inductive RetryOutcome where
  | ok
  | swallowed
  | thrown
deriving DecidableEq, Repr

/-- Result of `withRetry`: outcome, total number of attempts made, and the
backoff delays slept between attempts (milliseconds). -/
structure RetryTrace where
  outcome : RetryOutcome
  attempts : Nat
  delays : List Nat
deriving DecidableEq, Repr

/-- The retry loop of `withRetry` after the progress short-circuit:
`retries` counts failures so far; on a retryable failure with
`retries < MAX_RETRIES` it sleeps `min (INITIAL_RETRY_DELAY * 2^(retries-1))
MAX_RETRY_DELAY` and tries again, otherwise it rethrows.  Structured on the
remaining fuel `MAX_RETRIES - retries`. -/
def withRetryLoop (oracle : Nat → Attempt) : Nat → Nat → RetryTrace
  | 0, _ => { outcome := RetryOutcome.thrown, attempts := 0, delays := [] }
  | fuel + 1, i =>
    match oracle i with
    | Attempt.success => { outcome := RetryOutcome.ok, attempts := 1, delays := [] }
    | Attempt.nonRetryableFailure =>
      { outcome := RetryOutcome.thrown, attempts := 1, delays := [] }
    | Attempt.retryableFailure =>
      if fuel = 0 then { outcome := RetryOutcome.thrown, attempts := 1, delays := [] }
      else
        let d := min (INITIAL_RETRY_DELAY * 2 ^ i) MAX_RETRY_DELAY
        let rest := withRetryLoop oracle fuel (i + 1)
        { outcome := rest.outcome, attempts := rest.attempts + 1, delays := d :: rest.delays }

/-- `withRetry`: progress urls make a single attempt whose failure is
swallowed; every other url goes through the retry loop. -/
def withRetry (url : List Char) (oracle : Nat → Attempt) : RetryTrace :=
  if isProgressApi url then
    match oracle 0 with
    | Attempt.success => { outcome := RetryOutcome.ok, attempts := 1, delays := [] }
    | _ => { outcome := RetryOutcome.swallowed, attempts := 1, delays := [] }
  else withRetryLoop oracle MAX_RETRIES 0

/-! ## Bitrate solver (`src/task/converter.ts`, `Converter.convert`) -/

/-- `maxSize = 3_800_000_000` bytes. -/
def Converter.maxSize : ℚ := 3800000000

/-- `audioBitrate = 192 * 1000` bits per second. -/
def Converter.audioBitrate : ℚ := 192 * 1000

/-- The initial `videoBitrate = 1500 * 1000` bits per second, which acts as
the ceiling on the solved bitrate. -/
def Converter.defaultVideoBitrate : ℚ := 1500 * 1000

/-- The bitrate adjustment of `Converter.convert`: if the size estimated at
the default bitrate exceeds `maxSize`, redistribute
`maxSize * 8 / duration` between audio and video, with a 100 kbps floor for
video. -/
def Converter.solveVideoBitrate (duration : ℚ) : ℚ :=
  let totalBitrate := Converter.defaultVideoBitrate + Converter.audioBitrate
  let estimatedSize := duration * totalBitrate / 8
  if Converter.maxSize < estimatedSize then
    max (100 * 1000) (Converter.maxSize * 8 / duration - Converter.audioBitrate)
  else Converter.defaultVideoBitrate

/-- The bitrate formula as the claim words it: a ceiling of 3.8 GiB
(`3.8 * 2^30` bytes), `min(maxVideoBitrate, floor((maxFileSize*8)/duration) -
audioBitrate)` clamped to at least 100 kbps. -/
def Converter.solveVideoBitrateClaim (duration : ℚ) : ℚ :=
  let maxFileSize : ℚ := (19 / 5) * 1024 ^ 3
  max (100 * 1000)
    (min Converter.defaultVideoBitrate
      ((⌊maxFileSize * 8 / duration⌋ : ℚ) - Converter.audioBitrate))

/-! ## Chunked uploader (Bun S3 `Uploader.upload` in `src/task/converter.ts`) -/

/-- Multipart part size: `PART_SIZE = 5 * 1024 * 1024`. -/
def Uploader.PART_SIZE : Nat := 5 * 1024 * 1024

/-- The multipart branch is taken iff `totalSize > 10 * 1024 * 1024`. -/
def Uploader.usesMultipart (totalSize : Nat) : Bool :=
  decide (10 * 1024 * 1024 < totalSize)

/-- `partCount = Math.ceil(totalSize / PART_SIZE)`. -/
def Uploader.partCount (totalSize : Nat) : Nat :=
  (totalSize + Uploader.PART_SIZE - 1) / Uploader.PART_SIZE

/-- Bytes uploaded after part `i` finishes:
`min ((i+1) * PART_SIZE) totalSize` (the loop reads `slice(start, end)` with
`end = min(start + PART_SIZE, totalSize)`). -/
def Uploader.uploadedAfter (totalSize i : Nat) : Nat :=
  min ((i + 1) * Uploader.PART_SIZE) totalSize

/-- Percent progress after part `i`: `uploaded / totalSize * 100`. -/
def Uploader.progressAfter (totalSize i : Nat) : ℚ :=
  (Uploader.uploadedAfter totalSize i : ℚ) / (totalSize : ℚ) * 100

/-- The reporting test of the multipart loop,
`progress - lastReportedProgress >= 1`, stated exactly over byte counts
(`lastUploaded` is the byte counter at the last report, so
`lastReportedProgress = lastUploaded / totalSize * 100`): multiplying both
sides by `totalSize` gives `totalSize + lastUploaded * 100 ≤ uploaded * 100`.
`Uploader.emitCond_spec` proves the two forms equivalent. -/
def Uploader.emitCond (totalSize uploaded lastUploaded : Nat) : Bool :=
  decide (totalSize + lastUploaded * 100 ≤ uploaded * 100)

/-- The per-part progress emissions of the multipart loop: part `i` reports
iff `progress - lastReportedProgress >= 1` or `i` is the final part; on a
report `lastReportedProgress` becomes the current progress.  Structured on
the number of remaining parts. -/
def Uploader.emitGo (totalSize parts : Nat) : Nat → Nat → Nat → List Bool
  | 0, _, _ => []
  | fuel + 1, i, lastUploaded =>
    let uploaded := Uploader.uploadedAfter totalSize i
    let e : Bool := Uploader.emitCond totalSize uploaded lastUploaded || decide (i = parts - 1)
    e :: Uploader.emitGo totalSize parts fuel (i + 1) (if e then uploaded else lastUploaded)

/-- The full emission schedule of a multipart upload of `totalSize` bytes. -/
def Uploader.emitSchedule (totalSize : Nat) : List Bool :=
  Uploader.emitGo totalSize (Uploader.partCount totalSize) (Uploader.partCount totalSize) 0 0

/-- The emission schedule as the claim words it: part `i` reports iff the
integer percent (`⌊uploaded / totalSize * 100⌋`, i.e. `uploaded * 100 /
totalSize` in integer division) advanced since the last report, or `i` is
the final part. -/
def Uploader.emitScheduleClaimGo (totalSize parts : Nat) : Nat → Nat → Nat → List Bool
  | 0, _, _ => []
  | fuel + 1, i, lastUploaded =>
    let uploaded := Uploader.uploadedAfter totalSize i
    let e : Bool := decide (lastUploaded * 100 / totalSize < uploaded * 100 / totalSize) ||
      decide (i = parts - 1)
    e :: Uploader.emitScheduleClaimGo totalSize parts fuel (i + 1) (if e then uploaded else lastUploaded)

/-- Full claim-worded emission schedule. -/
def Uploader.emitScheduleClaim (totalSize : Nat) : List Bool :=
  Uploader.emitScheduleClaimGo totalSize (Uploader.partCount totalSize)
    (Uploader.partCount totalSize) 0 0

/-! ## Chunked downloader (`src/utils/downloader.ts`) -/

/-- `CHUNK_SIZE = 10 * 1024 * 1024` bytes. -/
def Downloader.CHUNK_SIZE : Nat := 10 * 1024 * 1024

/-- `MAX_CONCURRENT_CHUNKS = 3`. -/
def Downloader.MAX_CONCURRENT_CHUNKS : Nat := 3

/-- `MAX_RETRIES = 3` attempts per chunk. -/
def Downloader.MAX_RETRIES : Nat := 3

/-- `RETRY_DELAY = 1000` ms, a fixed delay between chunk attempts. -/
def Downloader.RETRY_DELAY : Nat := 1000

/-- The chunk plan loop: `for (start = 0; start < fileSize; start += CHUNK_SIZE)`
pushes `(start, min (start + CHUNK_SIZE - 1) (fileSize - 1))`.  Structured on
fuel; `mkChunks` supplies enough fuel for the whole file. -/
def Downloader.mkChunksGo (fileSize : Nat) : Nat → Nat → List (Nat × Nat)
  | 0, _ => []
  | fuel + 1, start =>
    if start < fileSize then
      (start, min (start + Downloader.CHUNK_SIZE - 1) (fileSize - 1)) ::
        Downloader.mkChunksGo fileSize fuel (start + Downloader.CHUNK_SIZE)
    else []

/-- The chunk plan for a file of `fileSize` bytes. -/
def Downloader.mkChunks (fileSize : Nat) : List (Nat × Nat) :=
  Downloader.mkChunksGo fileSize (fileSize / Downloader.CHUNK_SIZE + 1) 0

/-- `downloadChunks` batches the incomplete chunks in groups of
`MAX_CONCURRENT_CHUNKS` and awaits each group before the next. -/
def Downloader.batchesGo (l : List α) : Nat → List (List α)
  | 0 => []
  | fuel + 1 =>
    match l with
    | [] => []
    | _ => l.take Downloader.MAX_CONCURRENT_CHUNKS ::
        Downloader.batchesGo (l.drop Downloader.MAX_CONCURRENT_CHUNKS) fuel

/-- The batches processed by `downloadChunks`. -/
def Downloader.batches (l : List α) : List (List α) :=
  Downloader.batchesGo l l.length

/-- The per-chunk retry loop of `downloadChunk`: while `attempts <
MAX_RETRIES`, try; on failure increment `attempts` and, if attempts remain,
sleep the fixed `RETRY_DELAY`, else rethrow (failing the whole download).
Returns (success, attempts made, delays slept). -/
def Downloader.chunkRetryGo (oracle : Nat → Bool) : Nat → Nat → Bool × Nat × List Nat
  | 0, _ => (false, 0, [])
  | fuel + 1, i =>
    if oracle i then (true, 1, [])
    else if fuel = 0 then (false, 1, [])
    else
      let (s, n, ds) := Downloader.chunkRetryGo oracle fuel (i + 1)
      (s, n + 1, Downloader.RETRY_DELAY :: ds)

/-- `downloadChunk`'s retry behaviour against an oracle giving the outcome of
each attempt. -/
def Downloader.chunkRetry (oracle : Nat → Bool) : Bool × Nat × List Nat :=
  Downloader.chunkRetryGo oracle Downloader.MAX_RETRIES 0

/-! ## Task state machine (`src/core/TaskStates.ts`, `src/core/TaskState.ts`)

The states perform IO (download, transcode, upload, HTTP posts).  The
embedding abstracts each external operation into an oracle value
(`Except String String`: error message, or the produced path / url) and
records the control-plane calls and filesystem cleanups a state performs as
a list of `Effect`s. -/

/-- Task status enum (`TaskStatus` in `src/types/task.ts`). -/
inductive TaskStatus where
  | WAITING
  | DOWNLOADING
  | CONVERTING
  | UPLOADING
  | FINISHED
  | FAILED
  | PAUSED
deriving DecidableEq, Repr

/-- `task.error` payload. -/
structure TaskError where
  message : String
  code : String
deriving DecidableEq, Repr

/-- The task as mutated by the state machine. -/
structure PTask where
  id : String
  status : TaskStatus
  downloadedFilePath : Option String
  convertedFilePath : Option String
  uploadTargetUrl : Option String
  error : Option TaskError
deriving DecidableEq, Repr

/-- Control-plane calls and filesystem actions performed by a state. -/
inductive Effect where
  | postDownloadComplete (id : String) (path : String)
  | postComplete (id : String) (path : Option String)
  | postFail (id : String) (message : String)
  | cleanupTaskDir (id : String)
  | cleanupConvertedFile (path : String)
  | getMinio
deriving DecidableEq, Repr

/-- Names of the task states. -/
inductive StateName where
  | waiting
  | downloading
  | converting
  | uploading
  | complete
  | failed
deriving DecidableEq, Repr

/-- What `process` did: returned `null`, returned a next state, or threw. -/
inductive StepResult where
  | done
  | next (s : StateName)
  | threw (msg : String)
deriving DecidableEq, Repr

/-- Result of one state's `process`: the mutated task, the effects performed,
and how the call returned. -/
structure StepOut where
  task : PTask
  effects : List Effect
  result : StepResult
deriving DecidableEq, Repr

/-- The transcode output path `join(TMP_DIR, `${task.id}_converted.mp4`)`,
relative to the scratch root. -/
def convertedPath (id : String) : String := id ++ "_converted.mp4"

/-- `DownloadingState.process`: on success stores the downloaded path on the
task, posts `downloadComplete` (its own failure is swallowed), and returns
`null`; on failure marks the task `FAILED` with a `DOWNLOAD_ERROR` and
rethrows. -/
def DownloadingState.process (t : PTask) (r : Except String String) : StepOut :=
  let t1 := { t with status := TaskStatus.DOWNLOADING }
  match r with
  | Except.ok path =>
    ⟨{ t1 with downloadedFilePath := some path },
     [Effect.postDownloadComplete t.id path], StepResult.done⟩
  | Except.error m =>
    ⟨{ t1 with status := TaskStatus.FAILED, error := some ⟨m, "DOWNLOAD_ERROR"⟩ },
     [], StepResult.threw m⟩

/-- `WaitingState.process`: sets `WAITING` then directly drives
`DownloadingState` and returns its result. -/
def WaitingState.process (t : PTask) (r : Except String String) : StepOut :=
  DownloadingState.process { t with status := TaskStatus.WAITING } r

/-- `ConvertingState.process`: on success stores the converted path and
returns `null`; on failure marks `FAILED` with `CONVERT_ERROR` and rethrows. -/
def ConvertingState.process (t : PTask) (r : Except String String) : StepOut :=
  let t1 := { t with status := TaskStatus.CONVERTING }
  match r with
  | Except.ok _ =>
    ⟨{ t1 with convertedFilePath := some (convertedPath t.id) }, [], StepResult.done⟩
  | Except.error m =>
    ⟨{ t1 with status := TaskStatus.FAILED, error := some ⟨m, "CONVERT_ERROR"⟩ },
     [], StepResult.threw m⟩

/-- `UploadingState.process`: fetches object-store credentials, uploads, and
on success sets `FINISHED`, stores `uploadInfo` and returns a fresh
`CompleteState`; on failure marks `FAILED` with `UPLOAD_ERROR` and rethrows.
The oracle's payload is the presigned `targetUrl`. -/
def UploadingState.process (t : PTask) (r : Except String String) : StepOut :=
  let t1 := { t with status := TaskStatus.UPLOADING }
  match r with
  | Except.ok url =>
    ⟨{ t1 with status := TaskStatus.FINISHED, uploadTargetUrl := some url },
     [Effect.getMinio], StepResult.next StateName.complete⟩
  | Except.error m =>
    ⟨{ t1 with status := TaskStatus.FAILED, error := some ⟨m, "UPLOAD_ERROR"⟩ },
     [Effect.getMinio], StepResult.threw m⟩

/-- The cleanup both terminal states perform: remove the per-task scratch
directory and the converted file when recorded. -/
def cleanupTempFiles (t : PTask) : List Effect :=
  Effect.cleanupTaskDir t.id ::
    (match t.convertedFilePath with
     | some p => [Effect.cleanupConvertedFile p]
     | none => [])

/-- `CompleteState.process`: posts `complete` with
`{ result: { status: 'success', path: targetUrl } }`, cleans up, returns
`null`; a failing post rethrows. -/
def CompleteState.process (t : PTask) (postOk : Bool) : StepOut :=
  if postOk then
    ⟨t, Effect.postComplete t.id t.uploadTargetUrl :: cleanupTempFiles t, StepResult.done⟩
  else
    ⟨t, [Effect.postComplete t.id t.uploadTargetUrl], StepResult.threw "post failed"⟩

/-- `FailedState.process`: posts `fail` with the error message, cleans up,
returns `null`; a failing post is caught and still returns `null`. -/
def FailedState.process (t : PTask) (msg : String) (postOk : Bool) : StepOut :=
  if postOk then
    ⟨t, Effect.postFail t.id msg :: cleanupTempFiles t, StepResult.done⟩
  else
    ⟨t, [Effect.postFail t.id msg], StepResult.done⟩

/-- The event `TaskProcessor.process` emits after driving the entry state. -/
inductive PEvent where
  | complete
  | error (msg : String)
deriving DecidableEq, Repr

/-- `TaskProcessor.process` (`src/core/TaskState.ts`): choose the entry state
from the processor's stage (`download → WaitingState`,
`convert → ConvertingState`, `upload → UploadingState`), await its `process`
once, and emit `complete` on normal return — the returned next state is
discarded — or `error` when it threw. -/
def TaskProcessor.process (stage : Stage) (t : PTask) (r : Except String String) :
    StepOut × PEvent :=
  let out :=
    match stage with
    | Stage.download => WaitingState.process t r
    | Stage.convert => ConvertingState.process t r
    | Stage.upload => UploadingState.process t r
  match out.result with
  | StepResult.threw m => (out, PEvent.error m)
  | _ => (out, PEvent.complete)

/-- `Map.delete` on the carry store (`taskStates` in
`src/services/runner.ts`), modelled on the list of stored keys. -/
def carryDelete (carry : List String) (id : String) : List String :=
  carry.filter (fun x => !(x == id))

/-- The runner's `error` handler for every stage processor
(`setupEventListeners`): `taskQueue.fail(task.id, stage, error)` and
`taskStates.delete(task.id)`; it performs no HTTP call. -/
def RunnerService.onError (stage : Stage) (q : QState) (carry : List String)
    (taskId : String) : QState × List String × List Effect :=
  ((qFail q taskId stage).1, carryDelete carry taskId, [])

/-- The runner's `complete` handler for the upload processor:
`taskQueue.completeUpload(task)` and `taskStates.delete(task.id)`; it
performs no HTTP call. -/
def RunnerService.onUploadComplete (q : QState) (carry : List String) (t : Task) :
    QState × List String × List Effect :=
  ((qCompleteUpload q t).1, carryDelete carry t.id, [])

/-! ## Queue lemmas -/

theorem countId_cons (t : Task) (l : List Task) (i : String) :
    countId (t :: l) i = (if t.id = i then 1 else 0) + countId l i := by
  simp [countId, List.countP_cons]
  omega

theorem countId_append (l₁ l₂ : List Task) (i : String) :
    countId (l₁ ++ l₂) i = countId l₁ i + countId l₂ i := by
  simp [countId, List.countP_append]

theorem countId_insertDesc (t : Task) (l : List Task) (i : String) :
    countId (insertDesc t l) i = (if t.id = i then 1 else 0) + countId l i := by
  induction l with
  | nil => simp [insertDesc, countId_cons]
  | cons h tl ih =>
    simp only [insertDesc]
    by_cases hp : h.priority < t.priority
    · simp [hp, countId_cons]
    · simp [hp, countId_cons, ih]
      omega

theorem countId_sortDesc (l : List Task) (i : String) :
    countId (sortDesc l) i = countId l i := by
  induction l with
  | nil => rfl
  | cons h tl ih => simp [sortDesc, countId_insertDesc, countId_cons, ih]

theorem length_insertDesc (t : Task) (l : List Task) :
    (insertDesc t l).length = l.length + 1 := by
  induction l with
  | nil => rfl
  | cons h tl ih =>
    simp only [insertDesc]
    by_cases hp : h.priority < t.priority <;> simp [hp, ih]

theorem length_sortDesc (l : List Task) : (sortDesc l).length = l.length := by
  induction l with
  | nil => rfl
  | cons h tl ih => simp [sortDesc, length_insertDesc, ih]

theorem count_setAdd_self (l : List String) (x : String) (hx : x ∉ l) :
    (setAdd l x).count x = l.count x + 1 := by
  simp [setAdd, hx]

theorem count_setAdd_ne (l : List String) (x y : String) (hy : y ≠ x) :
    (setAdd l x).count y = l.count y := by
  unfold setAdd
  by_cases hx : x ∈ l
  · simp [hx]
  · simp [hx, List.count_append, List.count_singleton]
    intro h
    exact absurd h.symm hy

theorem length_setAdd_le (l : List String) (x : String) :
    (setAdd l x).length ≤ l.length + 1 := by
  unfold setAdd
  by_cases hx : x ∈ l <;> simp [hx]

theorem length_setDelete_le (l : List String) (x : String) :
    (setDelete l x).length ≤ l.length := by
  unfold setDelete
  exact (List.erase_sublist x l).length_le

theorem count_setDelete_le (l : List String) (x y : String) :
    (setDelete l x).count y ≤ l.count y := by
  unfold setDelete
  exact (List.erase_sublist x l).count_le y

theorem count_setDelete_self (l : List String) (x : String) :
    (setDelete l x).count x = l.count x - 1 := by
  simp [setDelete, List.count_erase_self]

theorem count_setDelete_ne (l : List String) (x y : String) (hy : y ≠ x) :
    (setDelete l x).count y = l.count y := by
  simp [setDelete, List.count_erase_of_ne hy]

theorem countId_singleton (t : Task) (i : String) :
    countId [t] i = if t.id = i then 1 else 0 := by
  simp [countId, List.countP_cons]

theorem isTaskInAnyQueue_false_iff (s : QState) (i : String) :
    isTaskInAnyQueue s i = false ↔ occCount s i = 0 := by
  simp [isTaskInAnyQueue, occCount, countId, List.any_eq_false, List.countP_eq_zero,
    List.count_eq_zero, Nat.add_eq_zero]

theorem qInv_add (s : QState) (t : Task) (h : QInv s) : QInv (qAdd s t).1 := by
  intro j
  by_cases hin : isTaskInAnyQueue s t.id
  · simpa [qAdd, hin] using h j
  · have h0 : occCount s t.id = 0 :=
      (isTaskInAnyQueue_false_iff s t.id).1 (by simpa using hin)
    have hj' := h j
    simp only [qAdd, hin, Bool.false_eq_true, if_false]
    simp only [occCount] at h0 hj'
    simp only [occCount, countId_append, countId_singleton]
    by_cases hjeq : t.id = j
    · subst hjeq
      rw [if_pos rfl]
      omega
    · rw [if_neg hjeq]
      omega

theorem qInv_nextDownload (s : QState) (h : QInv s) : QInv (qNextDownload s).1 := by
  intro j
  by_cases hc : s.downloadQueue.length = 0 ∨
      s.maxDownloadConcurrent ≤ (s.processingDownload.length : Int)
  · simp only [qNextDownload, if_pos hc]
    exact h j
  · simp only [qNextDownload, if_neg hc]
    cases hsort : sortDesc s.downloadQueue with
    | nil => simpa using h j
    | cons t rest =>
      simp only
      have hq : countId s.downloadQueue j = (if t.id = j then 1 else 0) + countId rest j := by
        rw [← countId_sortDesc, hsort, countId_cons]
      by_cases hjeq : t.id = j
      · subst hjeq
        have ht := h t.id
        simp only [occCount] at ht ⊢
        rw [hq, if_pos rfl] at ht
        have h2 : s.processingDownload.count t.id = 0 := by omega
        have hmem : t.id ∉ s.processingDownload := List.count_eq_zero.1 h2
        rw [count_setAdd_self _ _ hmem, h2]
        omega
      · have ht := h j
        simp only [occCount] at ht ⊢
        rw [hq, if_neg hjeq] at ht
        rw [count_setAdd_ne _ _ _ (fun hh => hjeq hh.symm)]
        omega

theorem qInv_nextConvert (s : QState) (h : QInv s) : QInv (qNextConvert s).1 := by
  intro j
  by_cases hc : s.convertQueue.length = 0 ∨
      s.maxConvertConcurrent ≤ (s.processingConvert.length : Int)
  · simp only [qNextConvert, if_pos hc]
    exact h j
  · simp only [qNextConvert, if_neg hc]
    cases hsort : sortDesc s.convertQueue with
    | nil => simpa using h j
    | cons t rest =>
      simp only
      have hq : countId s.convertQueue j = (if t.id = j then 1 else 0) + countId rest j := by
        rw [← countId_sortDesc, hsort, countId_cons]
      by_cases hjeq : t.id = j
      · subst hjeq
        have ht := h t.id
        simp only [occCount] at ht ⊢
        rw [hq, if_pos rfl] at ht
        have h2 : s.processingConvert.count t.id = 0 := by omega
        have hmem : t.id ∉ s.processingConvert := List.count_eq_zero.1 h2
        rw [count_setAdd_self _ _ hmem, h2]
        omega
      · have ht := h j
        simp only [occCount] at ht ⊢
        rw [hq, if_neg hjeq] at ht
        rw [count_setAdd_ne _ _ _ (fun hh => hjeq hh.symm)]
        omega

theorem qInv_nextUpload (s : QState) (h : QInv s) : QInv (qNextUpload s).1 := by
  intro j
  by_cases hc : s.uploadQueue.length = 0 ∨
      s.maxUploadConcurrent ≤ (s.processingUpload.length : Int)
  · simp only [qNextUpload, if_pos hc]
    exact h j
  · simp only [qNextUpload, if_neg hc]
    cases hsort : sortDesc s.uploadQueue with
    | nil => simpa using h j
    | cons t rest =>
      simp only
      have hq : countId s.uploadQueue j = (if t.id = j then 1 else 0) + countId rest j := by
        rw [← countId_sortDesc, hsort, countId_cons]
      by_cases hjeq : t.id = j
      · subst hjeq
        have ht := h t.id
        simp only [occCount] at ht ⊢
        rw [hq, if_pos rfl] at ht
        have h2 : s.processingUpload.count t.id = 0 := by omega
        have hmem : t.id ∉ s.processingUpload := List.count_eq_zero.1 h2
        rw [count_setAdd_self _ _ hmem, h2]
        omega
      · have ht := h j
        simp only [occCount] at ht ⊢
        rw [hq, if_neg hjeq] at ht
        rw [count_setAdd_ne _ _ _ (fun hh => hjeq hh.symm)]
        omega

theorem qInv_completeDownload (s : QState) (t : Task) (h : QInv s) :
    QInv (qCompleteDownload s t).1 := by
  intro j
  by_cases hc : s.processingDownload.contains t.id = true
  · have hmem : t.id ∈ s.processingDownload := by simpa using hc
    have hpos : 0 < s.processingDownload.count t.id := List.count_pos_iff.2 hmem
    simp only [qCompleteDownload, if_pos hc]
    simp only [occCount, countId_append, countId_singleton]
    by_cases hjeq : t.id = j
    · subst hjeq
      have ht := h t.id
      simp only [occCount] at ht
      rw [if_pos rfl, count_setDelete_self]
      omega
    · have ht := h j
      simp only [occCount] at ht
      rw [if_neg hjeq, count_setDelete_ne _ _ _ (fun hh => hjeq hh.symm)]
      omega
  · simp only [qCompleteDownload, if_neg hc]
    exact h j

theorem qInv_completeConvert (s : QState) (t : Task) (h : QInv s) :
    QInv (qCompleteConvert s t).1 := by
  intro j
  by_cases hc : s.processingConvert.contains t.id = true
  · have hmem : t.id ∈ s.processingConvert := by simpa using hc
    have hpos : 0 < s.processingConvert.count t.id := List.count_pos_iff.2 hmem
    simp only [qCompleteConvert, if_pos hc]
    simp only [occCount, countId_append, countId_singleton]
    by_cases hjeq : t.id = j
    · subst hjeq
      have ht := h t.id
      simp only [occCount] at ht
      rw [if_pos rfl, count_setDelete_self]
      omega
    · have ht := h j
      simp only [occCount] at ht
      rw [if_neg hjeq, count_setDelete_ne _ _ _ (fun hh => hjeq hh.symm)]
      omega
  · simp only [qCompleteConvert, if_neg hc]
    exact h j

theorem qInv_completeUpload (s : QState) (t : Task) (h : QInv s) :
    QInv (qCompleteUpload s t).1 := by
  intro j
  by_cases hc : s.processingUpload.contains t.id = true
  · have ht := h j
    simp only [qCompleteUpload, if_pos hc]
    simp only [occCount] at ht ⊢
    have := count_setDelete_le s.processingUpload t.id j
    omega
  · simp only [qCompleteUpload, if_neg hc]
    exact h j

theorem qInv_fail (s : QState) (i : String) (st : Stage) (h : QInv s) :
    QInv (qFail s i st).1 := by
  intro j
  have ht := h j
  simp only [occCount] at ht
  cases st with
  | download =>
    by_cases hc : s.processingDownload.contains i = true
    · simp only [qFail, if_pos hc]
      simp only [occCount]
      have := count_setDelete_le s.processingDownload i j
      omega
    · simp only [qFail, if_neg hc]
      simpa [occCount] using ht
  | convert =>
    by_cases hc : s.processingConvert.contains i = true
    · simp only [qFail, if_pos hc]
      simp only [occCount]
      have := count_setDelete_le s.processingConvert i j
      omega
    · simp only [qFail, if_neg hc]
      simpa [occCount] using ht
  | upload =>
    by_cases hc : s.processingUpload.contains i = true
    · simp only [qFail, if_pos hc]
      simp only [occCount]
      have := count_setDelete_le s.processingUpload i j
      omega
    · simp only [qFail, if_neg hc]
      simpa [occCount] using ht

theorem qInv_clear (s : QState) : QInv (qClear s).1 := by
  intro j
  simp [qClear, occCount, countId]

/-- Every queue operation preserves the at-most-once invariant. -/
theorem qInv_step (s : QState) (op : QOp) (h : QInv s) : QInv (qStep s op) := by
  cases op with
  | add t => exact qInv_add s t h
  | nextDownload => exact qInv_nextDownload s h
  | nextConvert => exact qInv_nextConvert s h
  | nextUpload => exact qInv_nextUpload s h
  | completeDownload t => exact qInv_completeDownload s t h
  | completeConvert t => exact qInv_completeConvert s t h
  | completeUpload t => exact qInv_completeUpload s t h
  | fail i st => exact qInv_fail s i st h
  | clear => exact qInv_clear s

theorem qInv_run (ops : List QOp) (s : QState) (h : QInv s) : QInv (qRun ops s) := by
  induction ops generalizing s with
  | nil => exact h
  | cons op rest ih => exact ih (qStep s op) (qInv_step s op h)

theorem qInv_mk0 (d c u : Int) : QInv (QState.mk0 d c u) := by
  intro j
  simp [QState.mk0, occCount, countId]

/-- No queue operation changes the configured caps. -/
theorem caps_qStep (s : QState) (op : QOp) :
    (qStep s op).maxDownloadConcurrent = s.maxDownloadConcurrent ∧
    (qStep s op).maxConvertConcurrent = s.maxConvertConcurrent ∧
    (qStep s op).maxUploadConcurrent = s.maxUploadConcurrent := by
  cases op <;>
    simp only [qStep, qAdd, qNextDownload, qNextConvert, qNextUpload,
      qCompleteDownload, qCompleteConvert, qCompleteUpload, qFail, qClear] <;>
    repeat' split
  all_goals simp

theorem caps_qRun (ops : List QOp) (s : QState) :
    (qRun ops s).maxDownloadConcurrent = s.maxDownloadConcurrent ∧
    (qRun ops s).maxConvertConcurrent = s.maxConvertConcurrent ∧
    (qRun ops s).maxUploadConcurrent = s.maxUploadConcurrent := by
  induction ops generalizing s with
  | nil => exact ⟨rfl, rfl, rfl⟩
  | cons op rest ih =>
    have h1 := caps_qStep s op
    have h2 := ih (qStep s op)
    exact ⟨h2.1.trans h1.1, h2.2.1.trans h1.2.1, h2.2.2.trans h1.2.2⟩

theorem capsLe_step (s : QState) (op : QOp)
    (hd : 0 ≤ s.maxDownloadConcurrent) (hc : 0 ≤ s.maxConvertConcurrent)
    (hu : 0 ≤ s.maxUploadConcurrent) (h : capsLe s) : capsLe (qStep s op) := by
  obtain ⟨h1, h2, h3⟩ := h
  cases op with
  | add t =>
    by_cases hin : isTaskInAnyQueue s t.id <;>
      simp only [qStep, qAdd, hin, Bool.false_eq_true, if_true, if_false] <;>
      exact ⟨h1, h2, h3⟩
  | nextDownload =>
    by_cases hg : s.downloadQueue.length = 0 ∨
        s.maxDownloadConcurrent ≤ (s.processingDownload.length : Int)
    · simp only [qStep, qNextDownload, if_pos hg]
      exact ⟨h1, h2, h3⟩
    · simp only [qStep, qNextDownload, if_neg hg]
      cases hsort : sortDesc s.downloadQueue with
      | nil => exact ⟨h1, h2, h3⟩
      | cons t rest =>
        push_neg at hg
        have hlen : ((setAdd s.processingDownload t.id).length : Int) ≤
            (s.processingDownload.length : Int) + 1 := by
          exact_mod_cast length_setAdd_le s.processingDownload t.id
        exact ⟨by simp only [capsLe]; omega, h2, h3⟩
  | nextConvert =>
    by_cases hg : s.convertQueue.length = 0 ∨
        s.maxConvertConcurrent ≤ (s.processingConvert.length : Int)
    · simp only [qStep, qNextConvert, if_pos hg]
      exact ⟨h1, h2, h3⟩
    · simp only [qStep, qNextConvert, if_neg hg]
      cases hsort : sortDesc s.convertQueue with
      | nil => exact ⟨h1, h2, h3⟩
      | cons t rest =>
        push_neg at hg
        have hlen : ((setAdd s.processingConvert t.id).length : Int) ≤
            (s.processingConvert.length : Int) + 1 := by
          exact_mod_cast length_setAdd_le s.processingConvert t.id
        exact ⟨h1, by simp only [capsLe]; omega, h3⟩
  | nextUpload =>
    by_cases hg : s.uploadQueue.length = 0 ∨
        s.maxUploadConcurrent ≤ (s.processingUpload.length : Int)
    · simp only [qStep, qNextUpload, if_pos hg]
      exact ⟨h1, h2, h3⟩
    · simp only [qStep, qNextUpload, if_neg hg]
      cases hsort : sortDesc s.uploadQueue with
      | nil => exact ⟨h1, h2, h3⟩
      | cons t rest =>
        push_neg at hg
        have hlen : ((setAdd s.processingUpload t.id).length : Int) ≤
            (s.processingUpload.length : Int) + 1 := by
          exact_mod_cast length_setAdd_le s.processingUpload t.id
        exact ⟨h1, h2, by simp only [capsLe]; omega⟩
  | completeDownload t =>
    by_cases hin : s.processingDownload.contains t.id = true <;>
      simp only [qStep, qCompleteDownload, hin, if_true, if_false, Bool.false_eq_true]
    · have hlen : ((setDelete s.processingDownload t.id).length : Int) ≤
          (s.processingDownload.length : Int) := by
        exact_mod_cast length_setDelete_le s.processingDownload t.id
      have g1 : ((setDelete s.processingDownload t.id).length : Int) ≤
          s.maxDownloadConcurrent := by omega
      exact ⟨g1, h2, h3⟩
    · exact ⟨h1, h2, h3⟩
  | completeConvert t =>
    by_cases hin : s.processingConvert.contains t.id = true <;>
      simp only [qStep, qCompleteConvert, hin, if_true, if_false, Bool.false_eq_true]
    · have hlen : ((setDelete s.processingConvert t.id).length : Int) ≤
          (s.processingConvert.length : Int) := by
        exact_mod_cast length_setDelete_le s.processingConvert t.id
      have g1 : ((setDelete s.processingConvert t.id).length : Int) ≤
          s.maxConvertConcurrent := by omega
      exact ⟨h1, g1, h3⟩
    · exact ⟨h1, h2, h3⟩
  | completeUpload t =>
    by_cases hin : s.processingUpload.contains t.id = true <;>
      simp only [qStep, qCompleteUpload, hin, if_true, if_false, Bool.false_eq_true]
    · have hlen : ((setDelete s.processingUpload t.id).length : Int) ≤
          (s.processingUpload.length : Int) := by
        exact_mod_cast length_setDelete_le s.processingUpload t.id
      have g1 : ((setDelete s.processingUpload t.id).length : Int) ≤
          s.maxUploadConcurrent := by omega
      exact ⟨h1, h2, g1⟩
    · exact ⟨h1, h2, h3⟩
  | fail i st =>
    cases st with
    | download =>
      by_cases hin : s.processingDownload.contains i = true <;>
        simp only [qStep, qFail, hin, if_true, if_false, Bool.false_eq_true]
      · have hlen : ((setDelete s.processingDownload i).length : Int) ≤
            (s.processingDownload.length : Int) := by
          exact_mod_cast length_setDelete_le s.processingDownload i
        have g1 : ((setDelete s.processingDownload i).length : Int) ≤
            s.maxDownloadConcurrent := by omega
        exact ⟨g1, h2, h3⟩
      · exact ⟨h1, h2, h3⟩
    | convert =>
      by_cases hin : s.processingConvert.contains i = true <;>
        simp only [qStep, qFail, hin, if_true, if_false, Bool.false_eq_true]
      · have hlen : ((setDelete s.processingConvert i).length : Int) ≤
            (s.processingConvert.length : Int) := by
          exact_mod_cast length_setDelete_le s.processingConvert i
        have g1 : ((setDelete s.processingConvert i).length : Int) ≤
            s.maxConvertConcurrent := by omega
        exact ⟨h1, g1, h3⟩
      · exact ⟨h1, h2, h3⟩
    | upload =>
      by_cases hin : s.processingUpload.contains i = true <;>
        simp only [qStep, qFail, hin, if_true, if_false, Bool.false_eq_true]
      · have hlen : ((setDelete s.processingUpload i).length : Int) ≤
            (s.processingUpload.length : Int) := by
          exact_mod_cast length_setDelete_le s.processingUpload i
        have g1 : ((setDelete s.processingUpload i).length : Int) ≤
            s.maxUploadConcurrent := by omega
        exact ⟨h1, h2, g1⟩
      · exact ⟨h1, h2, h3⟩
  | clear =>
    simp only [qStep, qClear, capsLe, List.length_nil, Int.natCast_zero]
    exact ⟨hd, hc, hu⟩

theorem capsLe_run (ops : List QOp) (s : QState)
    (hd : 0 ≤ s.maxDownloadConcurrent) (hc : 0 ≤ s.maxConvertConcurrent)
    (hu : 0 ≤ s.maxUploadConcurrent) (h : capsLe s) : capsLe (qRun ops s) := by
  induction ops generalizing s with
  | nil => exact h
  | cons op rest ih =>
    have hk := caps_qStep s op
    exact ih (qStep s op) (hk.1 ▸ hd) (hk.2.1 ▸ hc) (hk.2.2 ▸ hu)
      (capsLe_step s op hd hc hu h)

theorem qAdd_noop_iff (s : QState) (t : Task) :
    (qAdd s t).1 = s ↔ 0 < occCount s t.id := by
  cases hb : isTaskInAnyQueue s t.id with
  | false =>
    have h0 : occCount s t.id = 0 := (isTaskInAnyQueue_false_iff s t.id).1 hb
    simp only [qAdd, hb, Bool.false_eq_true, if_false, h0]
    constructor
    · intro he
      have := congrArg (fun x => x.downloadQueue.length) he
      simp at this
    · intro hp
      exact absurd hp (by omega)
  | true =>
    have h1 : occCount s t.id ≠ 0 := fun h0 => by
      rw [(isTaskInAnyQueue_false_iff s t.id).2 h0] at hb
      exact Bool.false_ne_true hb
    simp only [qAdd, hb, if_true]
    constructor
    · intro _
      omega
    · intro _
      trivial

theorem qAdd_idem (s : QState) (t : Task) :
    qAdd (qAdd s t).1 t = ((qAdd s t).1, []) := by
  cases hb : isTaskInAnyQueue s t.id with
  | true => simp [qAdd, hb]
  | false =>
    have hs : (qAdd s t).1 = { s with downloadQueue := s.downloadQueue ++ [t] } := by
      simp [qAdd, hb]
    rw [hs]
    have htrue : isTaskInAnyQueue
        { s with downloadQueue := s.downloadQueue ++ [t] } t.id = true := by
      simp [isTaskInAnyQueue, List.any_append]
    simp [qAdd, htrue]

/-- C4.  `add(task)` inserts the task into the download queue exactly when the
task's id occurs nowhere (no waiting list, no in-flight set); adding the same
task twice is the same as adding it once, the second call emitting nothing;
and from an empty queue with any caps, every sequence of queue operations
keeps every id in at most one place overall. -/
theorem add_iff_idempotent_and_unique :
    (∀ (s : QState) (t : Task),
      (isTaskInAnyQueue s t.id = false ↔ occCount s t.id = 0) ∧
      ((qAdd s t).1 = s ↔ 0 < occCount s t.id) ∧
      (occCount s t.id = 0 →
        (qAdd s t).1 = { s with downloadQueue := s.downloadQueue ++ [t] } ∧
        (qAdd s t).2 = [QEvent.added t.id, QEvent.updated]) ∧
      qAdd (qAdd s t).1 t = ((qAdd s t).1, [])) ∧
    (∀ (d c u : Int) (ops : List QOp) (j : String),
      occCount (qRun ops (QState.mk0 d c u)) j ≤ 1) := by
  constructor
  · intro s t
    refine ⟨isTaskInAnyQueue_false_iff s t.id, qAdd_noop_iff s t, ?_, qAdd_idem s t⟩
    intro h0
    have hb : isTaskInAnyQueue s t.id = false := (isTaskInAnyQueue_false_iff s t.id).2 h0
    constructor <;> simp [qAdd, hb]
  · intro d c u ops j
    exact qInv_run ops (QState.mk0 d c u) (qInv_mk0 d c u) j

/-- Witness for `add_iff_idempotent_and_unique` at a concrete queue and task. -/
theorem add_iff_idempotent_and_unique_witness :
    occCount (QState.mk0 1 1 1) "a" = 0 ∧
    (qAdd (QState.mk0 1 1 1) ⟨"a", 5⟩).1 =
      { QState.mk0 1 1 1 with downloadQueue := [⟨"a", 5⟩] } ∧
    qAdd (qAdd (QState.mk0 1 1 1) ⟨"a", 5⟩).1 ⟨"a", 5⟩ =
      ((qAdd (QState.mk0 1 1 1) ⟨"a", 5⟩).1, []) ∧
    occCount (qRun [QOp.add ⟨"a", 5⟩, QOp.add ⟨"a", 5⟩, QOp.nextDownload]
      (QState.mk0 1 1 1)) "a" ≤ 1 :=
  ⟨by decide,
   ((add_iff_idempotent_and_unique.1 (QState.mk0 1 1 1) ⟨"a", 5⟩).2.2.1 (by decide)).1,
   (add_iff_idempotent_and_unique.1 (QState.mk0 1 1 1) ⟨"a", 5⟩).2.2.2,
   add_iff_idempotent_and_unique.2 1 1 1 [QOp.add ⟨"a", 5⟩, QOp.add ⟨"a", 5⟩,
     QOp.nextDownload] "a"⟩

/-- C5.  Starting from an empty queue with nonnegative caps, after any
sequence of queue operations the in-flight set of every stage has at most
its configured cap's worth of members. -/
theorem inflight_never_exceeds_caps (d c u : Int) (ops : List QOp)
    (hd : 0 ≤ d) (hc : 0 ≤ c) (hu : 0 ≤ u) :
    ((qRun ops (QState.mk0 d c u)).processingDownload.length : Int) ≤ d ∧
    ((qRun ops (QState.mk0 d c u)).processingConvert.length : Int) ≤ c ∧
    ((qRun ops (QState.mk0 d c u)).processingUpload.length : Int) ≤ u := by
  have h0 : capsLe (QState.mk0 d c u) := by
    refine ⟨?_, ?_, ?_⟩ <;> simpa [QState.mk0]
  have h := capsLe_run ops (QState.mk0 d c u) hd hc hu h0
  have hcaps := caps_qRun ops (QState.mk0 d c u)
  obtain ⟨h1, h2, h3⟩ := h
  rw [hcaps.1] at h1
  rw [hcaps.2.1] at h2
  rw [hcaps.2.2] at h3
  exact ⟨h1, h2, h3⟩

/-- Witness for `inflight_never_exceeds_caps` with caps 1/1/1 and a busy
operation sequence. -/
theorem inflight_never_exceeds_caps_witness :
    ((qRun [QOp.add ⟨"a", 0⟩, QOp.add ⟨"b", 1⟩, QOp.nextDownload, QOp.nextDownload,
        QOp.completeDownload ⟨"b", 1⟩, QOp.nextConvert]
      (QState.mk0 1 1 1)).processingDownload.length : Int) ≤ 1 ∧
    ((qRun [QOp.add ⟨"a", 0⟩, QOp.add ⟨"b", 1⟩, QOp.nextDownload, QOp.nextDownload,
        QOp.completeDownload ⟨"b", 1⟩, QOp.nextConvert]
      (QState.mk0 1 1 1)).processingConvert.length : Int) ≤ 1 ∧
    ((qRun [QOp.add ⟨"a", 0⟩, QOp.add ⟨"b", 1⟩, QOp.nextDownload, QOp.nextDownload,
        QOp.completeDownload ⟨"b", 1⟩, QOp.nextConvert]
      (QState.mk0 1 1 1)).processingUpload.length : Int) ≤ 1 :=
  inflight_never_exceeds_caps 1 1 1
    [QOp.add ⟨"a", 0⟩, QOp.add ⟨"b", 1⟩, QOp.nextDownload, QOp.nextDownload,
      QOp.completeDownload ⟨"b", 1⟩, QOp.nextConvert]
    (by decide) (by decide) (by decide)

/-- C6 counterexample.  A `TaskQueue` built with the constructor's default
arguments does not have caps 1/1/1: the defaults are 2/1/2. -/
theorem default_caps_not_one_one_one :
    ¬(TaskQueue.defaultState.maxDownloadConcurrent = 1 ∧
      TaskQueue.defaultState.maxConvertConcurrent = 1 ∧
      TaskQueue.defaultState.maxUploadConcurrent = 1) := by
  decide

/-- C6 amended.  The constructor defaults are download 2, convert 1,
upload 2; the runner explicitly constructs its queue with 1/1/1. -/
theorem default_caps_values :
    TaskQueue.defaultState.maxDownloadConcurrent = 2 ∧
    TaskQueue.defaultState.maxConvertConcurrent = 1 ∧
    TaskQueue.defaultState.maxUploadConcurrent = 2 ∧
    RunnerService.queue.maxDownloadConcurrent = 1 ∧
    RunnerService.queue.maxConvertConcurrent = 1 ∧
    RunnerService.queue.maxUploadConcurrent = 1 := by
  decide

/-- C10.  Completing a stage for a task whose id is not in that stage's
in-flight set is a no-op: the state is returned unchanged and no event
(`stageCompleted`, `completed` or `updated`) is emitted. -/
theorem complete_noop_when_not_inflight (s : QState) (t : Task) :
    (t.id ∉ s.processingDownload → qCompleteDownload s t = (s, [])) ∧
    (t.id ∉ s.processingConvert → qCompleteConvert s t = (s, [])) ∧
    (t.id ∉ s.processingUpload → qCompleteUpload s t = (s, [])) := by
  refine ⟨fun h => ?_, fun h => ?_, fun h => ?_⟩ <;>
    simp [qCompleteDownload, qCompleteConvert, qCompleteUpload, h]

/-- Witness for `complete_noop_when_not_inflight`: a queue processing "b"
ignores completions for "a" in every stage. -/
theorem complete_noop_when_not_inflight_witness :
    qCompleteDownload { QState.mk0 1 1 1 with processingDownload := ["b"] } ⟨"a", 0⟩ =
      ({ QState.mk0 1 1 1 with processingDownload := ["b"] }, []) ∧
    qCompleteConvert { QState.mk0 1 1 1 with processingDownload := ["b"] } ⟨"a", 0⟩ =
      ({ QState.mk0 1 1 1 with processingDownload := ["b"] }, []) ∧
    qCompleteUpload { QState.mk0 1 1 1 with processingDownload := ["b"] } ⟨"a", 0⟩ =
      ({ QState.mk0 1 1 1 with processingDownload := ["b"] }, []) :=
  ⟨(complete_noop_when_not_inflight _ _).1 (by decide),
   (complete_noop_when_not_inflight _ _).2.1 (by decide),
   (complete_noop_when_not_inflight _ _).2.2 (by decide)⟩

/-- C1.  When the upload succeeds, `UploadingState.process` returns a
`CompleteState` and marks the task `FINISHED`; driving that `CompleteState`
would post `complete` with `{ status: success, path: targetUrl }` and clean
up — but `TaskProcessor.process` discards the returned state, so the
processor's only control-plane effect for the whole upload stage is the
credentials fetch: no `complete` post and no cleanup ever happen. -/
theorem upload_complete_state_never_driven (t : PTask) (url : String) :
    (UploadingState.process t (Except.ok url)).result =
      StepResult.next StateName.complete ∧
    (UploadingState.process t (Except.ok url)).task.status = TaskStatus.FINISHED ∧
    (UploadingState.process t (Except.ok url)).task.uploadTargetUrl = some url ∧
    (CompleteState.process (UploadingState.process t (Except.ok url)).task true).effects =
      Effect.postComplete t.id (some url) ::
        cleanupTempFiles (UploadingState.process t (Except.ok url)).task ∧
    (TaskProcessor.process Stage.upload t (Except.ok url)).1.effects =
      [Effect.getMinio] ∧
    (TaskProcessor.process Stage.upload t (Except.ok url)).2 = PEvent.complete := by
  refine ⟨rfl, rfl, rfl, ?_, rfl, rfl⟩
  simp [CompleteState.process, UploadingState.process]

/-- C2.  A stage processor whose stage work throws marks the task `FAILED`
with a populated error carrying the thrown message, and the processor emits
the `error` event; the runner's `error` handler then removes the task from
the queue stage and deletes the carry entry but performs no HTTP call — in
particular it never builds a `FailedState`, whose `process` is what would
post `/runner/:taskId/fail`. -/
theorem stage_error_fail_not_posted (stage : Stage) (t : PTask) (m : String)
    (q : QState) (carry : List String) :
    (TaskProcessor.process stage t (Except.error m)).1.task.status =
      TaskStatus.FAILED ∧
    (∃ e, (TaskProcessor.process stage t (Except.error m)).1.task.error = some e ∧
      e.message = m) ∧
    (TaskProcessor.process stage t (Except.error m)).2 = PEvent.error m ∧
    (RunnerService.onError stage q carry t.id).1 = (qFail q t.id stage).1 ∧
    (RunnerService.onError stage q carry t.id).2.1 = carryDelete carry t.id ∧
    t.id ∉ (RunnerService.onError stage q carry t.id).2.1 ∧
    (RunnerService.onError stage q carry t.id).2.2 = [] ∧
    Effect.postFail t.id m ∈
      (FailedState.process (TaskProcessor.process stage t (Except.error m)).1.task
        m true).effects := by
  have hmem : t.id ∉ (RunnerService.onError stage q carry t.id).2.1 := by
    simp [RunnerService.onError, carryDelete, List.mem_filter]
  cases stage with
  | download =>
    exact ⟨rfl, ⟨⟨m, "DOWNLOAD_ERROR"⟩, rfl, rfl⟩, rfl, rfl, rfl, hmem, rfl,
      by simp only [FailedState.process, if_pos]; exact List.mem_cons_self _ _⟩
  | convert =>
    exact ⟨rfl, ⟨⟨m, "CONVERT_ERROR"⟩, rfl, rfl⟩, rfl, rfl, rfl, hmem, rfl,
      by simp only [FailedState.process, if_pos]; exact List.mem_cons_self _ _⟩
  | upload =>
    exact ⟨rfl, ⟨⟨m, "UPLOAD_ERROR"⟩, rfl, rfl⟩, rfl, rfl, rfl, hmem, rfl,
      by simp only [FailedState.process, if_pos]; exact List.mem_cons_self _ _⟩

/-- C3 counterexample.  `/runner/t1/downloadComplete` is a state path
(`isStateApi` matches it), yet `withRetry` classifies it as progress because
`isProgressApi` is tested first and the url contains `/download`: a
retryable failure is attempted exactly once and swallowed, not retried. -/
theorem downloadComplete_swallowed_not_retried :
    isStateApi "/runner/t1/downloadComplete".toList = true ∧
    withRetry "/runner/t1/downloadComplete".toList (fun _ => Attempt.retryableFailure) =
      { outcome := RetryOutcome.swallowed, attempts := 1, delays := [] } := by
  exact ⟨by decide, by decide⟩

/-- C3 amended.  Any url containing `/download`, `/convert` or `/upload` —
including the stage markers `/downloadComplete` and `/convertComplete` — is
treated as progress: one attempt, failure swallowed.  Only the remaining
paths (`/complete`, `/fail`, `/start`, …) go through the retry loop: at most
3 attempts in total, delays `min(1000·2^k, 30000)` ms (1 s then 2 s) between
them, the error of the final attempt rethrown, and a non-retryable first
failure rethrown immediately. -/
theorem retry_policy_classification :
    isProgressApi "/runner/t1/downloadComplete".toList = true ∧
    isProgressApi "/runner/t1/convertComplete".toList = true ∧
    isProgressApi "/runner/t1/complete".toList = false ∧
    isProgressApi "/runner/t1/fail".toList = false ∧
    (∀ (url : List Char) (oracle : Nat → Attempt), isProgressApi url = true →
      (withRetry url oracle).attempts = 1 ∧
      (withRetry url oracle).outcome ≠ RetryOutcome.thrown) ∧
    (∀ (url : List Char) (oracle : Nat → Attempt), isProgressApi url = false →
      (∀ i, oracle i = Attempt.retryableFailure) →
      withRetry url oracle =
        { outcome := RetryOutcome.thrown, attempts := 3,
          delays := [min (INITIAL_RETRY_DELAY * 2 ^ 0) MAX_RETRY_DELAY,
            min (INITIAL_RETRY_DELAY * 2 ^ 1) MAX_RETRY_DELAY] }) ∧
    (∀ (url : List Char) (oracle : Nat → Attempt), isProgressApi url = false →
      oracle 0 = Attempt.nonRetryableFailure →
      withRetry url oracle =
        { outcome := RetryOutcome.thrown, attempts := 1, delays := [] }) ∧
    (∀ (url : List Char) (oracle : Nat → Attempt), oracle 0 = Attempt.success →
      withRetry url oracle =
        { outcome := RetryOutcome.ok, attempts := 1, delays := [] }) := by
  refine ⟨by decide, by decide, by decide, by decide, ?_, ?_, ?_, ?_⟩
  · intro url oracle h
    simp only [withRetry, h, if_true]
    cases oracle 0 <;> simp
  · intro url oracle h hfail
    simp [withRetry, h, MAX_RETRIES, withRetryLoop, hfail 0, hfail 1, hfail 2,
      INITIAL_RETRY_DELAY, MAX_RETRY_DELAY]
  · intro url oracle h h0
    simp [withRetry, h, MAX_RETRIES, withRetryLoop, h0]
  · intro url oracle h0
    by_cases h : isProgressApi url <;>
      simp [withRetry, h, MAX_RETRIES, withRetryLoop, h0]

/-- Witness for `retry_policy_classification` at the concrete urls of the
claim, with an always-retryable-failing call and an immediately succeeding
call. -/
theorem retry_policy_classification_witness :
    ((withRetry "/runner/t1/download".toList (fun _ => Attempt.retryableFailure)).attempts = 1 ∧
      (withRetry "/runner/t1/download".toList
        (fun _ => Attempt.retryableFailure)).outcome ≠ RetryOutcome.thrown) ∧
    withRetry "/runner/t1/complete".toList (fun _ => Attempt.retryableFailure) =
      { outcome := RetryOutcome.thrown, attempts := 3,
        delays := [min (INITIAL_RETRY_DELAY * 2 ^ 0) MAX_RETRY_DELAY,
          min (INITIAL_RETRY_DELAY * 2 ^ 1) MAX_RETRY_DELAY] } ∧
    withRetry "/runner/t1/fail".toList (fun _ => Attempt.nonRetryableFailure) =
      { outcome := RetryOutcome.thrown, attempts := 1, delays := [] } ∧
    withRetry "/runner/t1/complete".toList (fun _ => Attempt.success) =
      { outcome := RetryOutcome.ok, attempts := 1, delays := [] } :=
  ⟨retry_policy_classification.2.2.2.2.1 "/runner/t1/download".toList
      (fun _ => Attempt.retryableFailure) (by decide),
   retry_policy_classification.2.2.2.2.2.1 "/runner/t1/complete".toList
      (fun _ => Attempt.retryableFailure) (by decide) (fun _ => rfl),
   retry_policy_classification.2.2.2.2.2.2.1 "/runner/t1/fail".toList
      (fun _ => Attempt.nonRetryableFailure) (by decide) rfl,
   retry_policy_classification.2.2.2.2.2.2.2 "/runner/t1/complete".toList
      (fun _ => Attempt.success) rfl⟩

/-- C7 counterexample.  For a probed duration of 20000 s the solver yields
1 328 000 bps (ceiling 3 800 000 000 bytes, exact division), while the
claim's formula — a 3.8 GiB ceiling and a floor — yields 1 440 087 bps. -/
theorem bitrate_formula_differs_at_20000s :
    Converter.solveVideoBitrate 20000 = 1328000 ∧
    Converter.solveVideoBitrateClaim 20000 = 1440087 ∧
    Converter.solveVideoBitrate 20000 ≠ Converter.solveVideoBitrateClaim 20000 := by
  have h1 : Converter.solveVideoBitrate 20000 = 1328000 := by
    have hc : Converter.maxSize <
        20000 * (Converter.defaultVideoBitrate + Converter.audioBitrate) / 8 := by
      norm_num [Converter.maxSize, Converter.defaultVideoBitrate, Converter.audioBitrate]
    simp only [Converter.solveVideoBitrate]
    rw [if_pos hc, max_eq_right]
    · norm_num [Converter.maxSize, Converter.audioBitrate]
    · norm_num [Converter.maxSize, Converter.audioBitrate]
  have h2 : Converter.solveVideoBitrateClaim 20000 = 1440087 := by
    simp only [Converter.solveVideoBitrateClaim]
    have hfl : ⌊((19 : ℚ) / 5) * 1024 ^ 3 * 8 / 20000⌋ = 1632087 := by
      rw [Int.floor_eq_iff]
      norm_num
    rw [hfl]
    rw [min_eq_right (by norm_num [Converter.defaultVideoBitrate, Converter.audioBitrate])]
    rw [max_eq_right (by norm_num [Converter.audioBitrate])]
    norm_num [Converter.audioBitrate]
  refine ⟨h1, h2, ?_⟩
  rw [h1, h2]
  norm_num

/-- C7 amended.  For every positive probed duration, the solver equals
`max (100 kbps) (min maxVideoBitrate (maxFileSize·8/duration − audioBitrate))`
with `maxFileSize = 3 800 000 000` bytes (3.8 GB decimal, not GiB),
`maxVideoBitrate = 1500 kbps`, `audioBitrate = 192 kbps`, and exact rational
division with no intermediate floor (the result is floored only on
conversion to kbps for the encoder command line). -/
theorem bitrate_solver_closed_form (d : ℚ) (hd : 0 < d) :
    Converter.solveVideoBitrate d =
      max (100 * 1000)
        (min Converter.defaultVideoBitrate
          (Converter.maxSize * 8 / d - Converter.audioBitrate)) := by
  simp only [Converter.solveVideoBitrate]
  by_cases hc : Converter.maxSize <
      d * (Converter.defaultVideoBitrate + Converter.audioBitrate) / 8
  · rw [if_pos hc]
    have h8 : Converter.maxSize * 8 <
        d * (Converter.defaultVideoBitrate + Converter.audioBitrate) := by
      have := (lt_div_iff₀ (by norm_num : (0:ℚ) < 8)).1 hc
      linarith
    have h9 : Converter.maxSize * 8 / d <
        Converter.defaultVideoBitrate + Converter.audioBitrate := by
      rw [div_lt_iff₀ hd]
      linarith
    rw [min_eq_right (by
      simp only [Converter.defaultVideoBitrate, Converter.audioBitrate] at h9 ⊢
      linarith)]
  · rw [if_neg hc]
    push_neg at hc
    have h8 : d * (Converter.defaultVideoBitrate + Converter.audioBitrate) ≤
        Converter.maxSize * 8 := by
      have := (div_le_iff₀ (by norm_num : (0:ℚ) < 8)).1 hc
      linarith
    have h9 : Converter.defaultVideoBitrate + Converter.audioBitrate ≤
        Converter.maxSize * 8 / d := by
      rw [le_div_iff₀ hd]
      linarith
    rw [min_eq_left (by
      simp only [Converter.defaultVideoBitrate, Converter.audioBitrate] at h9 ⊢
      linarith)]
    rw [max_eq_right (by norm_num [Converter.defaultVideoBitrate])]

/-- Witness for `bitrate_solver_closed_form` at a one-hour duration. -/
theorem bitrate_solver_closed_form_witness :
    (0 : ℚ) < 3600 ∧
    Converter.solveVideoBitrate 3600 =
      max (100 * 1000)
        (min Converter.defaultVideoBitrate
          (Converter.maxSize * 8 / 3600 - Converter.audioBitrate)) :=
  ⟨by norm_num, bitrate_solver_closed_form 3600 (by norm_num)⟩

theorem emitGo_length (total parts : Nat) :
    ∀ (fuel i : Nat) (last : Nat),
      (Uploader.emitGo total parts fuel i last).length = fuel := by
  intro fuel
  induction fuel with
  | zero => intro i last; rfl
  | succ f ih => intro i last; simp only [Uploader.emitGo, List.length_cons, ih]

theorem getLast?_cons_of_getLast? {α : Type} (a x : α) (l : List α)
    (h : l.getLast? = some x) : (a :: l).getLast? = some x := by
  cases l with
  | nil => simp at h
  | cons b tl => rw [List.getLast?_cons_cons]; exact h

theorem emitGo_getLast (total parts : Nat) :
    ∀ (fuel i : Nat) (last : Nat), 0 < fuel → i + fuel = parts →
      (Uploader.emitGo total parts fuel i last).getLast? = some true := by
  intro fuel
  induction fuel with
  | zero => intro i last h0; exact absurd h0 (lt_irrefl 0)
  | succ f ih =>
    intro i last _ hsum
    cases f with
    | zero =>
      have hi : i = parts - 1 := by omega
      simp [Uploader.emitGo, hi]
    | succ f' =>
      rw [Uploader.emitGo]
      exact getLast?_cons_of_getLast? _ _ _ (ih (i + 1) _ (Nat.succ_pos f') (by omega))

theorem uploadedAfter_nonfinal (n i : Nat) (h : i + 1 < Uploader.partCount n) :
    Uploader.uploadedAfter n i = (i + 1) * Uploader.PART_SIZE := by
  have hP : 0 < Uploader.PART_SIZE := by decide
  have h2 : i + 2 ≤ (n + Uploader.PART_SIZE - 1) / Uploader.PART_SIZE := by
    have := h
    simp only [Uploader.partCount] at this
    omega
  have h3 : (i + 2) * Uploader.PART_SIZE ≤ n + Uploader.PART_SIZE - 1 :=
    (Nat.le_div_iff_mul_le hP).1 h2
  have h4 : (i + 1) * Uploader.PART_SIZE ≤ n := by
    simp only [Uploader.PART_SIZE] at h3 ⊢
    omega
  simp only [Uploader.uploadedAfter]
  omega

theorem emitCond_spec (total up last : Nat) (h : 0 < total) :
    Uploader.emitCond total up last =
      decide (1 ≤ (up : ℚ) / total * 100 - (last : ℚ) / total * 100) := by
  have ht : (0 : ℚ) < total := by exact_mod_cast h
  rw [Uploader.emitCond, decide_eq_decide]
  rw [le_sub_iff_add_le, div_mul_eq_mul_div, div_mul_eq_mul_div, le_div_iff₀ ht, add_mul,
      div_mul_cancel₀ _ ht.ne', one_mul]
  exact Iff.symm (by exact_mod_cast Iff.rfl)

/-- C8 counterexample.  For a 750 MiB file (150 parts of 2/3 % each), the
code does not report after part index 2 — the percent advanced only ⅔ of a
point since the last report — while the claim's "integer percent advanced"
rule would report there (percent 2.0 vs integer 1 at the last report). -/
theorem upload_emit_schedule_differs :
    Uploader.usesMultipart (750 * 1024 * 1024) = true ∧
    (Uploader.emitSchedule (750 * 1024 * 1024)).get? 2 = some false ∧
    (Uploader.emitScheduleClaim (750 * 1024 * 1024)).get? 2 = some true := by
  refine ⟨by decide, by decide, by decide⟩

/-- C8 amended.  Single-shot exactly when size ≤ 10 MiB (chunked at
10 MiB + 1), non-final parts are exactly 5 MiB, one report decision per part,
the final part always reports, and a non-final part reports iff the percent
(exact rational) advanced by at least one full point since the last report —
not when the integer percent advanced. -/
theorem upload_threshold_and_schedule :
    (∀ n, Uploader.usesMultipart n = true ↔ 10 * 1024 * 1024 < n) ∧
    Uploader.usesMultipart (10 * 1024 * 1024) = false ∧
    Uploader.usesMultipart (10 * 1024 * 1024 + 1) = true ∧
    (∀ n i, i + 1 < Uploader.partCount n →
      Uploader.uploadedAfter n i = (i + 1) * Uploader.PART_SIZE) ∧
    (∀ n, (Uploader.emitSchedule n).length = Uploader.partCount n) ∧
    (∀ n, 0 < Uploader.partCount n →
      (Uploader.emitSchedule n).getLast? = some true) ∧
    (∀ total up last, 0 < total →
      Uploader.emitCond total up last =
        decide (1 ≤ (up : ℚ) / total * 100 - (last : ℚ) / total * 100)) := by
  refine ⟨?_, by decide, by decide, uploadedAfter_nonfinal, ?_, ?_, emitCond_spec⟩
  · intro n
    simp [Uploader.usesMultipart]
  · intro n
    exact emitGo_length n (Uploader.partCount n) (Uploader.partCount n) 0 0
  · intro n hp
    exact emitGo_getLast n (Uploader.partCount n) (Uploader.partCount n) 0 0 hp
      (Nat.zero_add _)

/-- Witness for `upload_threshold_and_schedule` on a 750 MiB upload. -/
theorem upload_threshold_and_schedule_witness :
    Uploader.uploadedAfter (750 * 1024 * 1024) 2 = 3 * Uploader.PART_SIZE ∧
    (Uploader.emitSchedule (750 * 1024 * 1024)).getLast? = some true ∧
    Uploader.emitCond 200 3 1 =
      decide (1 ≤ (3 : ℚ) / 200 * 100 - (1 : ℚ) / 200 * 100) :=
  ⟨upload_threshold_and_schedule.2.2.2.1 (750 * 1024 * 1024) 2 (by decide),
   upload_threshold_and_schedule.2.2.2.2.2.1 (750 * 1024 * 1024) (by decide),
   upload_threshold_and_schedule.2.2.2.2.2.2 200 3 1 (by decide)⟩

theorem mkChunksGo_length (fileSize : Nat) :
    ∀ (fuel start : Nat), fileSize ≤ start + fuel * Downloader.CHUNK_SIZE →
      (Downloader.mkChunksGo fileSize fuel start).length =
        (fileSize - start + Downloader.CHUNK_SIZE - 1) / Downloader.CHUNK_SIZE := by
  intro fuel
  induction fuel with
  | zero =>
    intro start h
    simp only [Downloader.mkChunksGo, List.length_nil, Downloader.CHUNK_SIZE] at *
    omega
  | succ f ih =>
    intro start h
    simp only [Downloader.mkChunksGo]
    by_cases hs : start < fileSize
    · rw [if_pos hs]
      simp only [List.length_cons]
      rw [ih (start + Downloader.CHUNK_SIZE)
        (by simp only [Downloader.CHUNK_SIZE] at *; omega)]
      simp only [Downloader.CHUNK_SIZE] at *
      omega
    · rw [if_neg hs]
      simp only [List.length_nil, Downloader.CHUNK_SIZE] at *
      omega

theorem mkChunks_length (fileSize : Nat) :
    (Downloader.mkChunks fileSize).length =
      (fileSize + Downloader.CHUNK_SIZE - 1) / Downloader.CHUNK_SIZE := by
  rw [Downloader.mkChunks, mkChunksGo_length fileSize _ 0
    (by simp only [Downloader.CHUNK_SIZE]; omega)]
  simp

theorem chunkRetryGo_attempts_le (oracle : Nat → Bool) :
    ∀ (fuel i : Nat), (Downloader.chunkRetryGo oracle fuel i).2.1 ≤ fuel := by
  intro fuel
  induction fuel with
  | zero => intro i; simp [Downloader.chunkRetryGo]
  | succ f ih =>
    intro i
    simp only [Downloader.chunkRetryGo]
    by_cases h1 : oracle i = true
    · simp [h1]
    · simp only [h1, Bool.false_eq_true, if_false]
      by_cases h2 : f = 0
      · simp [h2]
      · simp only [h2, if_false]
        have := ih (i + 1)
        cases hgo : Downloader.chunkRetryGo oracle f (i + 1) with
        | mk s rest =>
          cases rest with
          | mk n ds =>
            rw [hgo] at this
            have hn : n ≤ f := by simpa using this
            simp [hgo]
            omega

theorem batchesGo_length_le {α : Type} :
    ∀ (fuel : Nat) (l : List α) (b : List α), b ∈ Downloader.batchesGo l fuel →
      b.length ≤ Downloader.MAX_CONCURRENT_CHUNKS := by
  intro fuel
  induction fuel with
  | zero => intro l b h; simp [Downloader.batchesGo] at h
  | succ f ih =>
    intro l b h
    cases l with
    | nil => simp [Downloader.batchesGo] at h
    | cons x xs =>
      simp only [Downloader.batchesGo, List.mem_cons] at h
      cases h with
      | inl he =>
        subst he
        simp
      | inr hm => exact ih _ b hm

/-- C9 counterexample.  The downloader's constants are not those of the
claim: chunks are 10 MiB (not 5 MiB), at most 3 chunks run in parallel (not
8), a chunk gets at most 3 attempts (not 5), and the chunk count is not
clamped to 32 — a 400 MiB source yields 40 chunks. -/
theorem chunk_constants_differ :
    ¬(Downloader.CHUNK_SIZE = 5 * 1024 * 1024 ∧
      Downloader.MAX_CONCURRENT_CHUNKS = 8 ∧
      Downloader.MAX_RETRIES = 5 ∧
      (Downloader.mkChunks (400 * 1024 * 1024)).length ≤ 32) := by
  decide

/-- C9 amended.  The chunked downloader uses 10 MiB chunks with the chunk
count `⌈size / chunkSize⌉` unclamped (400 MiB → 40 chunks), processes
batches of at most 3 chunks at a time, and retries each chunk up to 3
attempts in total with a fixed 1000 ms delay between attempts — not
exponential backoff; a chunk that exhausts its attempts rethrows, failing
the whole download. -/
theorem chunk_plan_and_retry :
    Downloader.CHUNK_SIZE = 10 * 1024 * 1024 ∧
    Downloader.MAX_CONCURRENT_CHUNKS = 3 ∧
    Downloader.MAX_RETRIES = 3 ∧
    Downloader.RETRY_DELAY = 1000 ∧
    (∀ fileSize, (Downloader.mkChunks fileSize).length =
      (fileSize + Downloader.CHUNK_SIZE - 1) / Downloader.CHUNK_SIZE) ∧
    (Downloader.mkChunks (400 * 1024 * 1024)).length = 40 ∧
    (∀ oracle : Nat → Bool,
      (Downloader.chunkRetry oracle).2.1 ≤ Downloader.MAX_RETRIES) ∧
    Downloader.chunkRetry (fun _ => false) =
      (false, 3, [Downloader.RETRY_DELAY, Downloader.RETRY_DELAY]) ∧
    (∀ (l b : List (Nat × Nat)), b ∈ Downloader.batches l →
      b.length ≤ Downloader.MAX_CONCURRENT_CHUNKS) := by
  refine ⟨rfl, rfl, rfl, rfl, mkChunks_length, by decide,
    fun oracle => chunkRetryGo_attempts_le oracle Downloader.MAX_RETRIES 0, by decide,
    fun l b h => batchesGo_length_le l.length l b h⟩

/-- Witness for `chunk_plan_and_retry` on a concrete chunk list. -/
theorem chunk_plan_and_retry_witness :
    (Downloader.mkChunks (25 * 1024 * 1024)).length =
      (25 * 1024 * 1024 + Downloader.CHUNK_SIZE - 1) / Downloader.CHUNK_SIZE ∧
    (Downloader.chunkRetry (fun i => i == 1)).2.1 ≤ Downloader.MAX_RETRIES ∧
    ([((0 : Nat), (1 : Nat)), (2, 3), (4, 5)]).length ≤
      Downloader.MAX_CONCURRENT_CHUNKS :=
  ⟨chunk_plan_and_retry.2.2.2.2.1 (25 * 1024 * 1024),
   chunk_plan_and_retry.2.2.2.2.2.2.1 (fun i => i == 1),
   chunk_plan_and_retry.2.2.2.2.2.2.2.2
     [(0, 1), (2, 3), (4, 5), (6, 7)] [(0, 1), (2, 3), (4, 5)] (by decide)⟩

end VideoConverter
